import Mathlib

/-
Verification development for the LMArena Bridge dashboard store
(`database.py`, `dashboard_server.py`).

Shallow embedding conventions:
* Python dicts become association lists in insertion order; `lookupKey`,
  `updateFirst`, `eraseFirst` and `insertKey` mirror `d.get`, in-place item
  mutation, `del d[k]` and `d[k] = v`.
* Timestamps are natural numbers (seconds since an epoch); `datetime.now()`
  becomes an explicit `now` argument, and the calendar date of a timestamp is
  its epoch day `t / 86400` (the `strftime("%Y-%m-%d")` bucketing; ascending
  ISO-date string order coincides with numeric epoch-day order).
* `hashlib.sha256(token).hexdigest()[:16]` is an abstract derivation
  `hashId : String → String` passed as a parameter.
* The geolocation lookup is an oracle: the resolved `country` string is an
  explicit argument of `log_usage`.
* File persistence (`_save_data`) has no observable effect on the in-memory
  state and is dropped; `_load_data` is modelled over an explicit parse
  result in the C8 section.
-/

/-- Python `dict.get(k)`: first binding of `k` in the association list. -/
def lookupKey {κ α : Type} [DecidableEq κ] (k : κ) : List (κ × α) → Option α
  | [] => none
  | (k', v) :: rest => if k' = k then some v else lookupKey k rest

/-- In-place mutation `d[k] = f(d[k])` of an existing dict entry: rewrite the
first binding of `k`, keeping its position. -/
def updateFirst {κ α : Type} [DecidableEq κ] (k : κ) (f : α → α) :
    List (κ × α) → List (κ × α)
  | [] => []
  | (k', v) :: rest =>
    if k' = k then (k', f v) :: rest else (k', v) :: updateFirst k f rest

/-- Python `del d[k]`: remove the first binding of `k`. -/
def eraseFirst {κ α : Type} [DecidableEq κ] (k : κ) :
    List (κ × α) → List (κ × α)
  | [] => []
  | (k', v) :: rest => if k' = k then rest else (k', v) :: eraseFirst k rest

/-- Python `d[k] = v`: overwrite in place when the key exists, otherwise
append at the end (dict insertion order). -/
def insertKey {κ α : Type} [DecidableEq κ] (k : κ) (v : α)
    (l : List (κ × α)) : List (κ × α) :=
  if (lookupKey k l).isSome then updateFirst k (fun _ => v) l else l ++ [(k, v)]

/-- Per-token aggregates (`usage_stats` block of a token record). -/
structure UsageStats where
  total_requests : Nat
  total_tokens : Int
  models_used : List (String × Nat)
  ip_addresses : List String
  countries : List (String × Nat)
deriving DecidableEq

/-- A token record as stored under `data["tokens"][token_id]`. -/
structure TokenRecord where
  key : String
  created_at : Nat
  last_used : Option Nat
  is_active : Bool
  user_info : List (String × String)
  usage_stats : UsageStats
deriving DecidableEq

/-- One entry of the global `usage_logs` list. -/
structure LogEntry where
  timestamp : Nat
  token_id : String
  model : String
  tokens : Int
  ip : String
  country : String
deriving DecidableEq

/-- The `stats` block of the store. -/
structure GlobalStats where
  total_requests : Nat
  total_tokens : Int
  active_tokens : Int
deriving DecidableEq

/-- The whole persisted store (`self.data`). -/
structure DbData where
  tokens : List (String × TokenRecord)
  usage_logs : List LogEntry
  stats : GlobalStats
deriving DecidableEq

/-- `_create_empty_db`: the empty store structure. -/
def emptyDb : DbData :=
  { tokens := [], usage_logs := [],
    stats := { total_requests := 0, total_tokens := 0, active_tokens := 0 } }

/-- Fresh token record as built by `generate_token`. -/
def newTokenRecord (token : String) (user_info : List (String × String))
    (now : Nat) : TokenRecord :=
  { key := token, created_at := now, last_used := none, is_active := true,
    user_info := user_info,
    usage_stats :=
      { total_requests := 0, total_tokens := 0, models_used := [],
        ip_addresses := [], countries := [] } }

/-- `generate_token`: insert a fresh record under the derived id, bump
`active_tokens`, return the secret.  The random secret and the current time
are oracle arguments. -/
def generate_token (hashId : String → String) (db : DbData) (token : String)
    (user_info : List (String × String)) (now : Nat) : String × DbData :=
  let token_id := hashId token
  let db' : DbData :=
    { db with tokens := insertKey token_id (newTokenRecord token user_info now) db.tokens }
  let db'' : DbData :=
    { db' with stats := { db'.stats with active_tokens := db'.stats.active_tokens + 1 } }
  (token, db'')

/-- `get_token_info`: look a token up by its secret string. -/
def get_token_info (hashId : String → String) (db : DbData) (token : String) :
    Option TokenRecord :=
  lookupKey (hashId token) db.tokens

/-- `get_token_by_id`. -/
def get_token_by_id (db : DbData) (token_id : String) : Option TokenRecord :=
  lookupKey token_id db.tokens

/-- `validate_token`: token exists and is active. -/
def validate_token (hashId : String → String) (db : DbData) (token : String) : Bool :=
  match get_token_info hashId db token with
  | none => false
  | some t => t.is_active

/-- `revoke_token`: decrement `active_tokens` only when the token was active,
then clear the flag; `false` only when the id is unknown. -/
def revoke_token (db : DbData) (token_id : String) : Bool × DbData :=
  match lookupKey token_id db.tokens with
  | some r =>
    let db' : DbData :=
      if r.is_active then
        { db with stats := { db.stats with active_tokens := db.stats.active_tokens - 1 } }
      else db
    (true,
      { db' with tokens := updateFirst token_id (fun t => { t with is_active := false }) db'.tokens })
  | none => (false, db)

/-- `activate_token`: increment `active_tokens` only on an inactive token,
then set the flag. -/
def activate_token (db : DbData) (token_id : String) : Bool × DbData :=
  match lookupKey token_id db.tokens with
  | some r =>
    let db' : DbData :=
      if r.is_active then db
      else
        { db with stats := { db.stats with active_tokens := db.stats.active_tokens + 1 } }
    (true,
      { db' with tokens := updateFirst token_id (fun t => { t with is_active := true }) db'.tokens })
  | none => (false, db)

/-- `delete_token`: decrement `active_tokens` when the record was active and
remove it. -/
def delete_token (db : DbData) (token_id : String) : Bool × DbData :=
  match lookupKey token_id db.tokens with
  | some r =>
    let db' : DbData :=
      if r.is_active then
        { db with stats := { db.stats with active_tokens := db.stats.active_tokens - 1 } }
      else db
    (true, { db' with tokens := eraseFirst token_id db'.tokens })
  | none => (false, db)

/-- Bump a counter dict entry: `if k not in d: d[k] = 0` then `d[k] += 1`. -/
def bumpCount (k : String) (l : List (String × Nat)) : List (String × Nat) :=
  if (lookupKey k l).isSome then updateFirst k (fun n => n + 1) l else l ++ [(k, 1)]

/-- IP tracking step of `log_usage`: append unseen IPs, and `pop(0)` once the
list holds more than 100 entries. -/
def ipStep (l : List String) (ip : String) : List String :=
  if ip ∈ l then l
  else
    let l' := l ++ [ip]
    if l'.length > 100 then l'.drop 1 else l'

/-- The per-token record mutation performed by `log_usage` on the addressed
token: `last_used`, aggregate counters, model counts, IP window, country
counts. -/
def applyUsage (model : String) (tokens_used : Int) (ip : String)
    (country : String) (now : Nat) (t : TokenRecord) : TokenRecord :=
  let us := t.usage_stats
  let us1 : UsageStats :=
    { us with total_requests := us.total_requests + 1,
              total_tokens := us.total_tokens + tokens_used }
  let us2 : UsageStats := { us1 with models_used := bumpCount model us1.models_used }
  let us3 : UsageStats := { us2 with ip_addresses := ipStep us2.ip_addresses ip }
  let us4 : UsageStats :=
    if country ≠ "" then { us3 with countries := bumpCount country us3.countries }
    else us3
  { t with last_used := some now, usage_stats := us4 }

/-- Python slice `l[-n:]`: the last `n` elements. -/
def takeLast {α : Type} (n : Nat) (l : List α) : List α :=
  l.drop (l.length - n)

/-- `log_usage`: silently drop events for unknown ids, otherwise update the
token record, append a log entry with 10,000-cap truncation, and bump the
global counters.  `country` is the geolocation oracle's answer and `now` the
clock reading. -/
def log_usage (hashId : String → String) (db : DbData) (token : String)
    (model : String) (tokens_used : Int) (ip : String) (country : String)
    (now : Nat) : DbData :=
  let token_id := hashId token
  match lookupKey token_id db.tokens with
  | none => db
  | some _ =>
    let tokens' := updateFirst token_id (applyUsage model tokens_used ip country now) db.tokens
    let logs' := db.usage_logs ++
      [{ timestamp := now, token_id := token_id, model := model,
         tokens := tokens_used, ip := ip, country := country }]
    let logs'' := if logs'.length > 10000 then takeLast 10000 logs' else logs'
    { tokens := tokens', usage_logs := logs'',
      stats := { total_requests := db.stats.total_requests + 1,
                 total_tokens := db.stats.total_tokens + tokens_used,
                 active_tokens := db.stats.active_tokens } }

/-- One usage event presented to `log_usage` (secret, payload, oracle data). -/
structure UsageEvent where
  secret : String
  model : String
  tokens_used : Int
  ip : String
  country : String
  now : Nat
deriving DecidableEq

/-- Fold a sequence of usage events through `log_usage`. -/
def recordAll (hashId : String → String) (db : DbData)
    (events : List UsageEvent) : DbData :=
  events.foldl
    (fun d e => log_usage hashId d e.secret e.model e.tokens_used e.ip e.country e.now) db

/-- The log entry a recorded event produces. -/
def entryOf (hashId : String → String) (e : UsageEvent) : LogEntry :=
  { timestamp := e.now, token_id := hashId e.secret, model := e.model,
    tokens := e.tokens_used, ip := e.ip, country := e.country }

/-- Admin operations driven against the store (C1). -/
inductive Op where
  | generate (token : String) (user_info : List (String × String)) (now : Nat)
  | revoke (token_id : String)
  | activate (token_id : String)
  | delete (token_id : String)
deriving DecidableEq

/-- Apply one admin operation, discarding the returned value. -/
def applyOp (hashId : String → String) (db : DbData) : Op → DbData
  | Op.generate tok ui now => (generate_token hashId db tok ui now).2
  | Op.revoke tid => (revoke_token db tid).2
  | Op.activate tid => (activate_token db tid).2
  | Op.delete tid => (delete_token db tid).2

/-- Run a sequence of admin operations. -/
def execOps (hashId : String → String) (db : DbData) (ops : List Op) : DbData :=
  ops.foldl (applyOp hashId) db

/-- Every `generate` along the run derives a token id not yet in the store
(the spec's effectively-injective derivation assumption). -/
def freshRun (hashId : String → String) : DbData → List Op → Bool
  | _, [] => true
  | db, op :: rest =>
    (match op with
     | Op.generate tok _ _ => !(lookupKey (hashId tok) db.tokens).isSome
     | _ => true) && freshRun hashId (applyOp hashId db op) rest

/-- Number of token records whose `is_active` flag is set. -/
def countActive (l : List (String × TokenRecord)) : Nat :=
  (l.filter (fun p => p.2.is_active)).length

/-- Calendar date of a log entry, modelled as its epoch day
(`strftime("%Y-%m-%d")` bucketing). -/
def dateOf (e : LogEntry) : Nat := e.timestamp / 86400

/-- Python truthiness of the optional `token_id` filter combined with the
mismatch test: `if token_id and log["token_id"] != token_id: continue`. -/
def timelineFilterSkip (token_id : Option String) (e : LogEntry) : Bool :=
  match token_id with
  | none => false
  | some t => decide (t ≠ "") && decide (e.token_id ≠ t)

/-- Dict update of one timeline bucket: create the `{"requests": 0,
"tokens": 0}` entry when absent, then add the event. -/
def addEntry (acc : List (Nat × Nat × Int)) (e : LogEntry) : List (Nat × Nat × Int) :=
  let d := dateOf e
  let acc' := if (lookupKey d acc).isSome then acc else acc ++ [(d, 0, 0)]
  updateFirst d (fun p => (p.1 + 1, p.2 + e.tokens)) acc'

/-- `get_usage_timeline`: scan the log, skip entries before the cutoff or for
other tokens, bucket by calendar date, and return the buckets sorted by date
(`sorted(timeline.items())`). -/
def get_usage_timeline (db : DbData) (token_id : Option String) (days : Int)
    (now : Nat) : List (Nat × Nat × Int) :=
  let cutoff : Int := (now : Int) - days * 86400
  let timeline := db.usage_logs.foldl
    (fun acc e =>
      if (e.timestamp : Int) < cutoff then acc
      else if timelineFilterSkip token_id e then acc
      else addEntry acc e) []
  timeline.insertionSort (fun p q => p.1 ≤ q.1)

/-- Modelled from the spec: an entry matches the optional token filter when
no token id is supplied or its `token_id` equals the supplied one. -/
def tokenMatches (token_id : Option String) (e : LogEntry) : Bool :=
  match token_id with
  | none => true
  | some t => e.token_id == t

/-- Modelled from the spec: the surviving log entries of a timeline query —
exactly those whose timestamp is not older than `now - days` and, when a
token id is supplied, whose `token_id` matches. -/
def survivingEntries (db : DbData) (token_id : Option String) (days : Int)
    (now : Nat) : List LogEntry :=
  db.usage_logs.filter
    (fun e =>
      decide ((now : Int) - days * 86400 ≤ (e.timestamp : Int)) &&
      tokenMatches token_id e)

/-- Modelled from the spec: the bucket of surviving entries sharing one
calendar date. -/
def bucketOf (es : List LogEntry) (d : Nat) : List LogEntry :=
  es.filter (fun e => dateOf e == d)

/-- Modelled from the spec: reference timeline — bucket the surviving entries
by calendar date, sum `requests` (count of entries) and `tokens` (sum of
their consumed tokens) per bucket, and emit buckets sorted ascending by
date, with no zero-filled buckets for dates without activity. -/
def timeline_spec (db : DbData) (token_id : Option String) (days : Int)
    (now : Nat) : List (Nat × Nat × Int) :=
  let surviving := survivingEntries db token_id days now
  let dates := ((surviving.map dateOf).dedup).insertionSort (fun a b => a ≤ b)
  dates.map (fun d =>
    (d, (bucketOf surviving d).length, ((bucketOf surviving d).map (fun e => e.tokens)).sum))

/-- An admin session record (`sessions[session_id]`). -/
structure SessionRec where
  username : String
  created_at : Nat
  expires_at : Nat
deriving DecidableEq

/-- `create_session`: insert a session with a 24-hour (86400 s) expiry; the
random session id and the clock are oracle arguments. -/
def create_session (sessions : List (String × SessionRec)) (username : String)
    (session_id : String) (now : Nat) : List (String × SessionRec) :=
  insertKey session_id
    { username := username, created_at := now, expires_at := now + 86400 } sessions

/-- `validate_session`: `False` on a falsy or unknown id; on an expired
session (`now > expires_at`) delete it and return `False`; otherwise
`True`.  Returns the validation result together with the session store. -/
def validate_session (sessions : List (String × SessionRec))
    (session_id : Option String) (now : Nat) :
    Bool × List (String × SessionRec) :=
  match session_id with
  | none => (false, sessions)
  | some sid =>
    if sid = "" then (false, sessions)
    else
      match lookupKey sid sessions with
      | none => (false, sessions)
      | some s =>
        if s.expires_at < now then (false, eraseFirst sid sessions)
        else (true, sessions)

/-- A JSON document, as `json.load` may return it. -/
inductive JsonVal where
  | null
  | bool (b : Bool)
  | num (n : Int)
  | str (s : String)
  | arr (xs : List JsonVal)
  | obj (fields : List (String × JsonVal))

/-- What the persisted state file may hold at startup: no file, content that
`json.load` rejects (`json.JSONDecodeError`), or a successfully parsed JSON
document. -/
inductive FileContent where
  | missing
  | invalidJson
  | valid (v : JsonVal)

/-- The `_create_empty_db` structure as a JSON document. -/
def emptyDbJson : JsonVal :=
  JsonVal.obj
    [("tokens", JsonVal.obj []),
     ("usage_logs", JsonVal.arr []),
     ("stats", JsonVal.obj
        [("total_requests", JsonVal.num 0),
         ("total_tokens", JsonVal.num 0),
         ("active_tokens", JsonVal.num 0)])]

/-- `_load_data`: a missing file or a JSON parse failure initializes the
empty structure; any successfully parsed document is returned verbatim, with
no schema validation. -/
def load_data : FileContent → JsonVal
  | FileContent.missing => emptyDbJson
  | FileContent.invalidJson => emptyDbJson
  | FileContent.valid v => v

/-- The sanitized payload of the public token-info endpoint. -/
structure SanitizedTokenInfo where
  created_at : Nat
  last_used : Option Nat
  is_active : Bool
  usage_stats : UsageStats
deriving DecidableEq

/-- Field selection performed by the `/api/token/{token}/info` handler. -/
def sanitizeToken (t : TokenRecord) : SanitizedTokenInfo :=
  { created_at := t.created_at, last_used := t.last_used,
    is_active := t.is_active, usage_stats := t.usage_stats }

/-- The `/api/token/{token}/info` endpoint: 404 when the secret's derived id
is unknown, otherwise the sanitized record. -/
def get_token_info_endpoint (hashId : String → String) (db : DbData)
    (token : String) : Except Nat SanitizedTokenInfo :=
  match get_token_info hashId db token with
  | none => Except.error 404
  | some info => Except.ok (sanitizeToken info)

lemma lookupKey_updateFirst_self {κ α : Type} [DecidableEq κ] (k : κ)
    (f : α → α) (l : List (κ × α)) :
    lookupKey k (updateFirst k f l) = (lookupKey k l).map f := by
  induction l with
  | nil => simp [lookupKey, updateFirst]
  | cons p rest ih =>
    obtain ⟨a, b⟩ := p
    by_cases h : a = k
    · subst h; simp [lookupKey, updateFirst]
    · simp [lookupKey, updateFirst, h, ih]

lemma lookupKey_updateFirst_ne {κ α : Type} [DecidableEq κ] {k' k : κ}
    (h : k' ≠ k) (f : α → α) (l : List (κ × α)) :
    lookupKey k (updateFirst k' f l) = lookupKey k l := by
  induction l with
  | nil => simp [lookupKey, updateFirst]
  | cons p rest ih =>
    obtain ⟨a, b⟩ := p
    by_cases h1 : a = k'
    · subst h1; simp [lookupKey, updateFirst, h, ih]
    · by_cases h2 : a = k
      · subst h2; simp [lookupKey, updateFirst, h1]
      · simp [lookupKey, updateFirst, h1, h2, ih]

lemma lookupKey_eraseFirst_ne {κ α : Type} [DecidableEq κ] {k' k : κ}
    (h : k' ≠ k) (l : List (κ × α)) :
    lookupKey k (eraseFirst k' l) = lookupKey k l := by
  induction l with
  | nil => simp [lookupKey, eraseFirst]
  | cons p rest ih =>
    obtain ⟨a, b⟩ := p
    by_cases h1 : a = k'
    · subst h1; simp [lookupKey, eraseFirst, h, Ne.symm h]
    · by_cases h2 : a = k
      · subst h2; simp [lookupKey, eraseFirst, h1]
      · simp [lookupKey, eraseFirst, h1, h2, ih]

lemma lookupKey_append {κ α : Type} [DecidableEq κ] (k : κ)
    (l1 l2 : List (κ × α)) :
    lookupKey k (l1 ++ l2) =
      (lookupKey k l1).elim (lookupKey k l2) some := by
  induction l1 with
  | nil => simp [lookupKey]
  | cons p rest ih =>
    obtain ⟨a, b⟩ := p
    by_cases h : a = k
    · subst h; simp [lookupKey]
    · simp [lookupKey, h, ih]

lemma lookupKey_insertKey_self {κ α : Type} [DecidableEq κ] (k : κ) (v : α)
    (l : List (κ × α)) : lookupKey k (insertKey k v l) = some v := by
  unfold insertKey
  by_cases h : (lookupKey k l).isSome
  · rw [if_pos h, lookupKey_updateFirst_self]
    obtain ⟨w, hw⟩ := Option.isSome_iff_exists.mp h
    simp [hw]
  · rw [if_neg h, lookupKey_append]
    rw [Option.not_isSome_iff_eq_none] at h
    simp [h, lookupKey]

/-- `1` for an active record, `0` otherwise. -/
def activeBit (r : TokenRecord) : Nat := if r.is_active then 1 else 0

lemma countActive_nil : countActive [] = 0 := rfl

lemma countActive_cons (a : String) (x : TokenRecord)
    (rest : List (String × TokenRecord)) :
    countActive ((a, x) :: rest) = activeBit x + countActive rest := by
  cases hx : x.is_active
  · simp [countActive, activeBit, List.filter_cons, hx]
  · simp [countActive, activeBit, List.filter_cons, hx]
    omega

lemma countActive_append (l1 l2 : List (String × TokenRecord)) :
    countActive (l1 ++ l2) = countActive l1 + countActive l2 := by
  simp [countActive, List.filter_append]

lemma countActive_updateFirst (k : String) (f : TokenRecord → TokenRecord)
    (l : List (String × TokenRecord)) (r : TokenRecord)
    (h : lookupKey k l = some r) :
    countActive (updateFirst k f l) + activeBit r
      = countActive l + activeBit (f r) := by
  induction l with
  | nil => simp [lookupKey] at h
  | cons p rest ih =>
    obtain ⟨a, b⟩ := p
    by_cases h1 : a = k
    · subst h1
      simp [lookupKey] at h
      subst h
      simp [updateFirst, countActive_cons]
      omega
    · simp only [lookupKey, if_neg h1] at h
      simp only [updateFirst, if_neg h1]
      rw [countActive_cons, countActive_cons]
      have := ih h
      omega

lemma countActive_eraseFirst (k : String)
    (l : List (String × TokenRecord)) (r : TokenRecord)
    (h : lookupKey k l = some r) :
    countActive (eraseFirst k l) + activeBit r = countActive l := by
  induction l with
  | nil => simp [lookupKey] at h
  | cons p rest ih =>
    obtain ⟨a, b⟩ := p
    by_cases h1 : a = k
    · subst h1
      simp [lookupKey] at h
      subst h
      simp [eraseFirst, countActive_cons]
      omega
    · simp only [lookupKey, if_neg h1] at h
      simp only [eraseFirst, if_neg h1]
      rw [countActive_cons, countActive_cons]
      have := ih h
      omega

lemma activeBit_set_false (r : TokenRecord) :
    activeBit { r with is_active := false } = 0 := by
  simp [activeBit]

lemma activeBit_set_true (r : TokenRecord) :
    activeBit { r with is_active := true } = 1 := by
  simp [activeBit]

lemma inv_applyOp (hashId : String → String) (db : DbData) (op : Op)
    (hInv : db.stats.active_tokens = (countActive db.tokens : Int))
    (hf : ∀ tok ui now, op = Op.generate tok ui now →
      lookupKey (hashId tok) db.tokens = none) :
    (applyOp hashId db op).stats.active_tokens
      = (countActive (applyOp hashId db op).tokens : Int) := by
  cases op with
  | generate tok ui now =>
    have hfr := hf tok ui now rfl
    simp only [applyOp, generate_token, insertKey, hfr, Option.isSome_none,
      Bool.false_eq_true, if_false, countActive_append, countActive_cons,
      countActive_nil, newTokenRecord, activeBit]
    simp only [if_true]
    omega
  | revoke tid =>
    simp only [applyOp, revoke_token]
    cases h : lookupKey tid db.tokens with
    | none => simpa using hInv
    | some r =>
      have hcount := countActive_updateFirst tid
        (fun t => { t with is_active := false }) db.tokens r h
      rw [activeBit_set_false] at hcount
      cases ha : r.is_active with
      | true =>
        simp [activeBit, ha] at hcount
        simp only [ha, if_true]
        omega
      | false =>
        simp [activeBit, ha] at hcount
        simp only [ha, Bool.false_eq_true, if_false]
        omega
  | activate tid =>
    simp only [applyOp, activate_token]
    cases h : lookupKey tid db.tokens with
    | none => simpa using hInv
    | some r =>
      have hcount := countActive_updateFirst tid
        (fun t => { t with is_active := true }) db.tokens r h
      rw [activeBit_set_true] at hcount
      cases ha : r.is_active with
      | true =>
        simp [activeBit, ha] at hcount
        simp only [ha, if_true]
        omega
      | false =>
        simp [activeBit, ha] at hcount
        simp only [ha, Bool.false_eq_true, if_false]
        omega
  | delete tid =>
    simp only [applyOp, delete_token]
    cases h : lookupKey tid db.tokens with
    | none => simpa using hInv
    | some r =>
      have hcount := countActive_eraseFirst tid db.tokens r h
      cases ha : r.is_active with
      | true =>
        simp [activeBit, ha] at hcount
        simp only [ha, if_true]
        omega
      | false =>
        simp [activeBit, ha] at hcount
        simp only [ha, Bool.false_eq_true, if_false]
        omega

lemma activeDelta_applyOp (hashId : String → String) (db : DbData) (op : Op) :
    (applyOp hashId db op).stats.active_tokens - db.stats.active_tokens = -1 ∨
    (applyOp hashId db op).stats.active_tokens - db.stats.active_tokens = 0 ∨
    (applyOp hashId db op).stats.active_tokens - db.stats.active_tokens = 1 := by
  cases op with
  | generate tok ui now =>
    right; right; simp only [applyOp, generate_token]; omega
  | revoke tid =>
    cases h : lookupKey tid db.tokens with
    | none => right; left; simp [applyOp, revoke_token, h]
    | some r =>
      by_cases ha : r.is_active
      · left; simp only [applyOp, revoke_token, h, ha, if_true]; omega
      · right; left
        simp only [applyOp, revoke_token, h, ha, Bool.false_eq_true, if_false]
        omega
  | activate tid =>
    cases h : lookupKey tid db.tokens with
    | none => right; left; simp [applyOp, activate_token, h]
    | some r =>
      by_cases ha : r.is_active
      · right; left; simp only [applyOp, activate_token, h, ha, if_true]; omega
      · right; right
        simp only [applyOp, activate_token, h, ha, Bool.false_eq_true, if_false]
        omega
  | delete tid =>
    cases h : lookupKey tid db.tokens with
    | none => right; left; simp [applyOp, delete_token, h]
    | some r =>
      by_cases ha : r.is_active
      · left; simp only [applyOp, delete_token, h, ha, if_true]; omega
      · right; left
        simp only [applyOp, delete_token, h, ha, Bool.false_eq_true, if_false]
        omega

lemma freshRun_take (hashId : String → String) :
    ∀ (ops : List Op) (db : DbData) (n : Nat), freshRun hashId db ops = true →
      freshRun hashId db (ops.take n) = true := by
  intro ops
  induction ops with
  | nil => intro db n h; simpa [List.take_nil] using h
  | cons op rest ih =>
    intro db n h
    cases n with
    | zero => simp [freshRun]
    | succ m =>
      simp only [List.take_succ_cons]
      simp only [freshRun, Bool.and_eq_true] at h ⊢
      exact ⟨h.1, ih _ m h.2⟩

lemma inv_execOps (hashId : String → String) :
    ∀ (ops : List Op) (db : DbData),
      db.stats.active_tokens = (countActive db.tokens : Int) →
      freshRun hashId db ops = true →
      (execOps hashId db ops).stats.active_tokens
        = (countActive (execOps hashId db ops).tokens : Int) := by
  intro ops
  induction ops with
  | nil => intro db hInv _; simpa [execOps] using hInv
  | cons op rest ih =>
    intro db hInv h
    simp only [freshRun, Bool.and_eq_true] at h
    have hstep : (applyOp hashId db op).stats.active_tokens
        = (countActive (applyOp hashId db op).tokens : Int) := by
      apply inv_applyOp hashId db op hInv
      intro tok ui now hop
      subst hop
      have h1 : (!(lookupKey (hashId tok) db.tokens).isSome) = true := h.1
      cases hl : lookupKey (hashId tok) db.tokens with
      | none => rfl
      | some v => rw [hl] at h1; simp at h1
    have hexec : execOps hashId db (op :: rest)
        = execOps hashId (applyOp hashId db op) rest := by
      simp [execOps]
    rw [hexec]
    exact ih _ hstep h.2

/-- Claim C1: for every sequence of generate/revoke/activate/delete
operations applied to the empty store (with each generated token id fresh,
the spec's effectively-injective derivation), after each operation
`stats.active_tokens` equals the number of token records with
`is_active = true`, and each operation changes `stats.active_tokens` by
exactly `-1`, `0` or `+1`. -/
theorem claim_C1_active_tokens_invariant (hashId : String → String)
    (ops : List Op) (hfresh : freshRun hashId emptyDb ops = true) :
    (∀ n : Nat, (execOps hashId emptyDb (ops.take n)).stats.active_tokens
        = (countActive (execOps hashId emptyDb (ops.take n)).tokens : Int)) ∧
    (∀ pre op rest, ops = pre ++ op :: rest →
      ((execOps hashId emptyDb (pre ++ [op])).stats.active_tokens
          - (execOps hashId emptyDb pre).stats.active_tokens = -1 ∨
       (execOps hashId emptyDb (pre ++ [op])).stats.active_tokens
          - (execOps hashId emptyDb pre).stats.active_tokens = 0 ∨
       (execOps hashId emptyDb (pre ++ [op])).stats.active_tokens
          - (execOps hashId emptyDb pre).stats.active_tokens = 1)) := by
  constructor
  · intro n
    exact inv_execOps hashId (ops.take n) emptyDb (by simp [emptyDb, countActive])
      (freshRun_take hashId ops emptyDb n hfresh)
  · intro pre op rest _
    have hexec : execOps hashId emptyDb (pre ++ [op])
        = applyOp hashId (execOps hashId emptyDb pre) op := by
      simp [execOps, List.foldl_append]
    rw [hexec]
    exact activeDelta_applyOp hashId (execOps hashId emptyDb pre) op

/-- Witness for C1 at a concrete run: generate then revoke one token under
the identity derivation. -/
theorem claim_C1_witness :
    freshRun (fun s => s) emptyDb [Op.generate ("a") [] 0, Op.revoke ("a")] = true ∧
    (execOps (fun s => s) emptyDb
        ([Op.generate ("a") [] 0, Op.revoke ("a")].take 2)).stats.active_tokens
      = (countActive (execOps (fun s => s) emptyDb
          ([Op.generate ("a") [] 0, Op.revoke ("a")].take 2)).tokens : Int) :=
  ⟨by decide,
   (claim_C1_active_tokens_invariant (fun s => s)
      [Op.generate ("a") [] 0, Op.revoke ("a")] (by decide)).1 2⟩

lemma updateFirst_idem {κ α : Type} [DecidableEq κ] (k : κ) (f : α → α)
    (hf : ∀ a, f (f a) = f a) :
    ∀ l : List (κ × α), updateFirst k f (updateFirst k f l) = updateFirst k f l
  | [] => rfl
  | (a, b) :: rest => by
    by_cases h : a = k
    · subst h; simp [updateFirst, hf]
    · simp [updateFirst, h, updateFirst_idem k f hf rest]

lemma lookupKey_eq_none_of_not_mem {κ α : Type} [DecidableEq κ] {k : κ}
    {l : List (κ × α)} (h : k ∉ l.map Prod.fst) : lookupKey k l = none := by
  induction l with
  | nil => rfl
  | cons p rest ih =>
    obtain ⟨a, b⟩ := p
    simp only [List.map_cons, List.mem_cons] at h
    push_neg at h
    simp [lookupKey, Ne.symm h.1, ih h.2]

lemma lookupKey_eraseFirst_self {κ α : Type} [DecidableEq κ] (k : κ)
    (l : List (κ × α)) (hnd : (l.map Prod.fst).Nodup) :
    lookupKey k (eraseFirst k l) = none := by
  induction l with
  | nil => rfl
  | cons p rest ih =>
    obtain ⟨a, b⟩ := p
    simp only [List.map_cons, List.nodup_cons] at hnd
    by_cases h : a = k
    · subst h
      simp only [eraseFirst, if_pos rfl]
      exact lookupKey_eq_none_of_not_mem hnd.1
    · simp [eraseFirst, lookupKey, h, ih hnd.2]

/-- Claim C2: a `log_usage` call whose derived token id is not a key of the
token map leaves the entire store unchanged and reports no error (the
function's only result is the unchanged state). -/
theorem claim_C2_unknown_token_silent_drop (hashId : String → String)
    (db : DbData) (token model : String) (tokens_used : Int)
    (ip country : String) (now : Nat)
    (h : lookupKey (hashId token) db.tokens = none) :
    log_usage hashId db token model tokens_used ip country now = db := by
  simp [log_usage, h]

/-- Witness for C2: an event for an unknown secret against the empty store. -/
theorem claim_C2_witness :
    lookupKey ((fun _ => "x") ("s")) emptyDb.tokens = none ∧
    log_usage (fun _ => "x") emptyDb ("s") ("m") 3 ("1.2.3.4") ("Local") 0 = emptyDb :=
  ⟨rfl, claim_C2_unknown_token_silent_drop (fun _ => "x") emptyDb ("s") ("m") 3
    ("1.2.3.4") ("Local") 0 rfl⟩

/-- Claim C6: `revoke_token` returns `true` exactly when the token exists
(even when already inactive), returns `false` and changes nothing when it
does not, leaves `active_tokens` unchanged when revoking an inactive token,
and revoking twice gives the same state as revoking once. -/
theorem claim_C6_revoke_idempotent (db : DbData) (token_id : String) :
    ((∃ r, lookupKey token_id db.tokens = some r) →
      (revoke_token db token_id).1 = true) ∧
    (lookupKey token_id db.tokens = none →
      revoke_token db token_id = (false, db)) ∧
    (∀ r, lookupKey token_id db.tokens = some r → r.is_active = false →
      (revoke_token db token_id).2.stats.active_tokens
        = db.stats.active_tokens) ∧
    ((revoke_token (revoke_token db token_id).2 token_id).2
      = (revoke_token db token_id).2) := by
  refine ⟨?_, ?_, ?_, ?_⟩
  · rintro ⟨r, h⟩; simp [revoke_token, h]
  · intro h; simp [revoke_token, h]
  · intro r h hact; simp [revoke_token, h, hact]
  · cases h : lookupKey token_id db.tokens with
    | none => simp [revoke_token, h]
    | some r =>
      have hidem := updateFirst_idem token_id
        (fun t => { t with is_active := false }) (fun t => rfl) db.tokens
      cases hact : r.is_active with
      | true =>
        simp [revoke_token, h, hact, lookupKey_updateFirst_self, hidem]
      | false =>
        simp [revoke_token, h, hact, lookupKey_updateFirst_self, hidem]

/-- Empty per-token aggregates, for concrete witnesses. -/
def sampleStats : UsageStats :=
  { total_requests := 0, total_tokens := 0, models_used := [],
    ip_addresses := [], countries := [] }

/-- A concrete inactive token record, for witnesses. -/
def inactiveRecord : TokenRecord :=
  { key := "sec", created_at := 0, last_used := none, is_active := false,
    user_info := [], usage_stats := sampleStats }

/-- A concrete active token record, for witnesses. -/
def activeRecord : TokenRecord :=
  { key := "sec", created_at := 5, last_used := none, is_active := true,
    user_info := [], usage_stats := sampleStats }

/-- A store holding one inactive token under id `"t"`, for witnesses. -/
def inactiveDb : DbData :=
  { tokens := [(("t"), inactiveRecord)], usage_logs := [],
    stats := { total_requests := 0, total_tokens := 0, active_tokens := 0 } }

/-- A store holding one active token under id `"t"`, for witnesses. -/
def activeDb : DbData :=
  { tokens := [(("t"), activeRecord)], usage_logs := [],
    stats := { total_requests := 7, total_tokens := 9, active_tokens := 1 } }

/-- Witness for C6 at a store holding one inactive token. -/
theorem claim_C6_witness :
    (revoke_token inactiveDb ("t")).1 = true ∧
    (revoke_token emptyDb ("t")) = (false, emptyDb) :=
  ⟨(claim_C6_revoke_idempotent inactiveDb ("t")).1 ⟨inactiveRecord, rfl⟩,
   (claim_C6_revoke_idempotent emptyDb ("t")).2.1 rfl⟩

/-- Claim C8 counterexample: a state file holding syntactically valid JSON
that is not the expected structure (here the document `[]`) is loaded
verbatim; `_load_data` does not initialize the empty structure on it. -/
theorem claim_C8_counterexample :
    load_data (FileContent.valid (JsonVal.arr [])) ≠ emptyDbJson := by
  intro hcontra
  simp [load_data, emptyDbJson] at hcontra

/-- Claim C8 (amended): a missing state file or content rejected by the JSON
parser initializes the empty structure and loading itself never fails, but
successfully parsed JSON is returned verbatim with no schema validation. -/
theorem claim_C8_load_data_amended :
    load_data FileContent.missing = emptyDbJson ∧
    load_data FileContent.invalidJson = emptyDbJson ∧
    ∀ v, load_data (FileContent.valid v) = v :=
  ⟨rfl, rfl, fun _ => rfl⟩

/-- Claim C9: the public token self-lookup returns exactly the stored
record's `created_at`, `last_used`, `is_active` and `usage_stats` (a
`SanitizedTokenInfo` holds exactly those four fields), never the secret
(`sanitizeToken` is insensitive to the `key` field), and an unknown secret
yields a 404 failure. -/
theorem claim_C9_token_info_sanitized (hashId : String → String)
    (db : DbData) (token : String) :
    (get_token_info hashId db token = none →
      get_token_info_endpoint hashId db token = Except.error 404) ∧
    (∀ r, get_token_info hashId db token = some r →
      get_token_info_endpoint hashId db token = Except.ok
        { created_at := r.created_at, last_used := r.last_used,
          is_active := r.is_active, usage_stats := r.usage_stats }) ∧
    (∀ r k, sanitizeToken { r with key := k } = sanitizeToken r) := by
  refine ⟨?_, ?_, ?_⟩
  · intro h; simp [get_token_info_endpoint, h]
  · intro r h; simp [get_token_info_endpoint, h, sanitizeToken]
  · intro r k; rfl

/-- Witness for C9: a found and a not-found lookup. -/
theorem claim_C9_witness :
    get_token_info_endpoint (fun _ => "t") activeDb ("s")
      = Except.ok
          { created_at := 5, last_used := none, is_active := true,
            usage_stats := sampleStats } ∧
    get_token_info_endpoint (fun _ => "t") emptyDb ("s") = Except.error 404 :=
  ⟨(claim_C9_token_info_sanitized (fun _ => "t") activeDb ("s")).2.1 activeRecord rfl,
   (claim_C9_token_info_sanitized (fun _ => "t") emptyDb ("s")).1 rfl⟩

/-- Claim C10: `revoke_token` and `activate_token` on a present token modify
only that token's `is_active` flag and `stats.active_tokens`: the usage log,
the request/token counters, every other token record and every other field
of the touched record are unchanged. -/
theorem claim_C10_revoke_activate_frame (db : DbData) (token_id : String)
    (r : TokenRecord) (h : lookupKey token_id db.tokens = some r) :
    ((revoke_token db token_id).2.usage_logs = db.usage_logs ∧
     (revoke_token db token_id).2.stats.total_requests
        = db.stats.total_requests ∧
     (revoke_token db token_id).2.stats.total_tokens
        = db.stats.total_tokens ∧
     lookupKey token_id (revoke_token db token_id).2.tokens
        = some { r with is_active := false } ∧
     (∀ k, k ≠ token_id → lookupKey k (revoke_token db token_id).2.tokens
        = lookupKey k db.tokens)) ∧
    ((activate_token db token_id).2.usage_logs = db.usage_logs ∧
     (activate_token db token_id).2.stats.total_requests
        = db.stats.total_requests ∧
     (activate_token db token_id).2.stats.total_tokens
        = db.stats.total_tokens ∧
     lookupKey token_id (activate_token db token_id).2.tokens
        = some { r with is_active := true } ∧
     (∀ k, k ≠ token_id → lookupKey k (activate_token db token_id).2.tokens
        = lookupKey k db.tokens)) := by
  cases hact : r.is_active with
  | true =>
    refine ⟨⟨?_, ?_, ?_, ?_, ?_⟩, ⟨?_, ?_, ?_, ?_, ?_⟩⟩ <;>
      simp [revoke_token, activate_token, h, hact, lookupKey_updateFirst_self]
    all_goals intro k hk
    all_goals exact lookupKey_updateFirst_ne (Ne.symm hk) _ db.tokens
  | false =>
    refine ⟨⟨?_, ?_, ?_, ?_, ?_⟩, ⟨?_, ?_, ?_, ?_, ?_⟩⟩ <;>
      simp [revoke_token, activate_token, h, hact, lookupKey_updateFirst_self]
    all_goals intro k hk
    all_goals exact lookupKey_updateFirst_ne (Ne.symm hk) _ db.tokens

/-- Witness for C10: the frame facts at a one-token store. -/
theorem claim_C10_witness :
    (revoke_token activeDb ("t")).2.stats.total_requests = 7 :=
  ((claim_C10_revoke_activate_frame activeDb ("t") activeRecord rfl).1).2.1

/-- Claim C7: `validate_session` never reports a session valid strictly
after its `expires_at` (which `create_session` sets to creation time plus 24
hours): a valid result implies `now ≤ expires_at` and leaves the store
unchanged; a session is invalid when absent or past expiry; and an expired
session is removed from the store exactly on the first validation observing
it expired. -/
theorem claim_C7_session_expiry (sessions : List (String × SessionRec))
    (sid : Option String) (now : Nat)
    (hnd : (sessions.map Prod.fst).Nodup) :
    ((validate_session sessions sid now).1 = true →
      ∃ id s, sid = some id ∧ lookupKey id sessions = some s ∧
        now ≤ s.expires_at ∧ (validate_session sessions sid now).2 = sessions) ∧
    (∀ id s, sid = some id → id ≠ "" → lookupKey id sessions = some s →
      s.expires_at < now →
      (validate_session sessions sid now).1 = false ∧
      (validate_session sessions sid now).2 = eraseFirst id sessions ∧
      lookupKey id (validate_session sessions sid now).2 = none) ∧
    (∀ id, sid = some id → lookupKey id sessions = none →
      validate_session sessions sid now = (false, sessions)) ∧
    (sid = none → validate_session sessions sid now = (false, sessions)) ∧
    (∀ u i now2, lookupKey i (create_session sessions u i now2)
      = some { username := u, created_at := now2, expires_at := now2 + 86400 }) := by
  refine ⟨?_, ?_, ?_, ?_, ?_⟩
  · intro hvalid
    match hsid : sid with
    | none => simp [validate_session] at hvalid
    | some id =>
      by_cases hid : id = ""
      · simp [validate_session, hid] at hvalid
      · cases hl : lookupKey id sessions with
        | none => simp [validate_session, hid, hl] at hvalid
        | some s =>
          by_cases hexp : s.expires_at < now
          · simp [validate_session, hid, hl, hexp] at hvalid
          · exact ⟨id, s, rfl, hl, Nat.le_of_not_lt hexp,
              by simp [validate_session, hid, hl, hexp]⟩
  · intro id s hsid hid hl hexp
    subst hsid
    refine ⟨?_, ?_, ?_⟩
    · simp [validate_session, hid, hl, hexp]
    · simp [validate_session, hid, hl, hexp]
    · simp only [validate_session, hid, hl, hexp]
      exact lookupKey_eraseFirst_self id sessions hnd
  · intro id hsid hl
    subst hsid
    by_cases hid : id = ""
    · simp [validate_session, hid]
    · simp [validate_session, hid, hl]
  · intro hsid; subst hsid; rfl
  · intro u i now2
    exact lookupKey_insertKey_self i _ sessions

/-- Witness for C7: one session created at time 0; validation at 86399 s is
valid, at 86401 s it is invalid and the session is removed. -/
theorem claim_C7_witness :
    ((validate_session (create_session [] ("admin") ("sid") 0)
        (some ("sid")) 86401).1 = false ∧
      (validate_session (create_session [] ("admin") ("sid") 0)
        (some ("sid")) 86401).2
        = eraseFirst ("sid") (create_session [] ("admin") ("sid") 0) ∧
      lookupKey ("sid") (validate_session (create_session [] ("admin") ("sid") 0)
        (some ("sid")) 86401).2 = none) ∧
    (validate_session (create_session [] ("admin") ("sid") 0)
        (some ("sid")) 86399).1 = true :=
  ⟨(claim_C7_session_expiry (create_session [] ("admin") ("sid") 0)
      (some ("sid")) 86401 (by simp [create_session, insertKey, lookupKey])).2.1
      ("sid") { username := "admin", created_at := 0, expires_at := 86400 }
      rfl (by decide) rfl (by decide),
   by decide⟩

lemma takeLast_eq_self {α : Type} {n : Nat} {l : List α} (h : l.length ≤ n) :
    takeLast n l = l := by
  unfold takeLast
  have h0 : l.length - n = 0 := by omega
  rw [h0, List.drop_zero]

lemma length_takeLast {α : Type} (n : Nat) (l : List α) :
    (takeLast n l).length = min n l.length := by
  unfold takeLast
  rw [List.length_drop]
  omega

lemma takeLast_append_takeLast {α : Type} (n : Nat) (xs ys : List α) :
    takeLast n (takeLast n xs ++ ys) = takeLast n (xs ++ ys) := by
  by_cases h : xs.length ≤ n
  · rw [takeLast_eq_self h]
  · push_neg at h
    have h1 : takeLast n xs = xs.drop (xs.length - n) := rfl
    have h2 : xs.drop (xs.length - n) ++ ys = (xs ++ ys).drop (xs.length - n) := by
      rw [List.drop_append_eq_append_drop]
      have h0 : xs.length - n - xs.length = 0 := by omega
      rw [h0, List.drop_zero]
    rw [h1, h2]
    unfold takeLast
    rw [List.length_drop, List.drop_drop]
    congr 1
    rw [List.length_append]
    omega

/-- The log entry built inside `log_usage`. -/
lemma log_usage_usage_logs (hashId : String → String) (db : DbData)
    (token model : String) (tokens_used : Int) (ip country : String)
    (now : Nat) (r : TokenRecord)
    (h : lookupKey (hashId token) db.tokens = some r) :
    (log_usage hashId db token model tokens_used ip country now).usage_logs
      = takeLast 10000 (db.usage_logs ++
          [{ timestamp := now, token_id := hashId token, model := model,
             tokens := tokens_used, ip := ip, country := country }]) := by
  simp only [log_usage, h]
  by_cases hlen : (db.usage_logs ++
      [({ timestamp := now, token_id := hashId token, model := model,
          tokens := tokens_used, ip := ip, country := country } : LogEntry)]).length > 10000
  · rw [if_pos hlen]
  · rw [if_neg hlen]
    push_neg at hlen
    rw [takeLast_eq_self hlen]

lemma log_usage_keeps_keys (hashId : String → String) (db : DbData)
    (token model : String) (tokens_used : Int) (ip country : String)
    (now : Nat) (k : String) :
    (lookupKey k (log_usage hashId db token model tokens_used ip country now).tokens).isSome
      = (lookupKey k db.tokens).isSome := by
  cases h : lookupKey (hashId token) db.tokens with
  | none => simp [log_usage, h]
  | some r =>
    simp only [log_usage, h]
    by_cases hk : hashId token = k
    · subst hk
      rw [lookupKey_updateFirst_self, h]
      simp [h]
    · rw [lookupKey_updateFirst_ne hk]

lemma log_usage_stats (hashId : String → String) (db : DbData)
    (token model : String) (tokens_used : Int) (ip country : String)
    (now : Nat) (r : TokenRecord)
    (h : lookupKey (hashId token) db.tokens = some r) :
    (log_usage hashId db token model tokens_used ip country now).stats.total_requests
        = db.stats.total_requests + 1 ∧
    (log_usage hashId db token model tokens_used ip country now).stats.total_tokens
        = db.stats.total_tokens + tokens_used := by
  constructor <;> simp [log_usage, h]

lemma recordAll_characterization (hashId : String → String) :
    ∀ (events : List UsageEvent) (db : DbData),
      db.usage_logs.length ≤ 10000 →
      (∀ e ∈ events, (lookupKey (hashId e.secret) db.tokens).isSome = true) →
      (recordAll hashId db events).usage_logs
        = takeLast 10000 (db.usage_logs ++ events.map (entryOf hashId)) ∧
      (recordAll hashId db events).stats.total_requests
        = db.stats.total_requests + events.length ∧
      (recordAll hashId db events).stats.total_tokens
        = db.stats.total_tokens + (events.map (fun e => e.tokens_used)).sum := by
  intro events
  induction events with
  | nil =>
    intro db hlen _
    refine ⟨?_, by simp [recordAll], by simp [recordAll]⟩
    simp only [recordAll, List.foldl_nil, List.map_nil, List.append_nil]
    rw [takeLast_eq_self hlen]
  | cons e rest ih =>
    intro db hlen hpres
    have hfound : (lookupKey (hashId e.secret) db.tokens).isSome = true :=
      hpres e (List.mem_cons_self e rest)
    obtain ⟨r, hr⟩ := Option.isSome_iff_exists.mp hfound
    have hlogs1 : (log_usage hashId db e.secret e.model e.tokens_used e.ip
        e.country e.now).usage_logs
        = takeLast 10000 (db.usage_logs ++ [entryOf hashId e]) :=
      log_usage_usage_logs hashId db e.secret e.model e.tokens_used e.ip
        e.country e.now r hr
    have hlen1 : (log_usage hashId db e.secret e.model e.tokens_used e.ip
        e.country e.now).usage_logs.length ≤ 10000 := by
      rw [hlogs1, length_takeLast]
      omega
    have hpres1 : ∀ e' ∈ rest,
        (lookupKey (hashId e'.secret) (log_usage hashId db e.secret e.model
          e.tokens_used e.ip e.country e.now).tokens).isSome = true := by
      intro e' he'
      rw [log_usage_keeps_keys]
      exact hpres e' (List.mem_cons_of_mem _ he')
    have hrec : recordAll hashId db (e :: rest)
        = recordAll hashId (log_usage hashId db e.secret e.model e.tokens_used
            e.ip e.country e.now) rest := by
      simp [recordAll]
    obtain ⟨H1, H2, H3⟩ := ih _ hlen1 hpres1
    have hst := log_usage_stats hashId db e.secret e.model e.tokens_used e.ip
      e.country e.now r hr
    refine ⟨?_, ?_, ?_⟩
    · rw [hrec, H1, hlogs1, takeLast_append_takeLast, List.append_assoc]
      simp [List.map_cons]
    · rw [hrec, H2, hst.1]
      simp only [List.length_cons]
      omega
    · rw [hrec, H3, hst.2]
      simp only [List.map_cons, List.sum_cons]
      omega

/-- Claim C3: after every `log_usage` run the global usage log holds at most
10,000 entries, truncation keeps exactly the most recent 10,000 (after
10,001 recorded events from an empty log the oldest survivor is the 2nd
event), and the global request/token counters are incremented for every
recorded event independently of truncation. -/
theorem claim_C3_usage_log_cap (hashId : String → String) (db : DbData)
    (events : List UsageEvent)
    (hlen : db.usage_logs.length ≤ 10000)
    (hpres : ∀ e ∈ events, (lookupKey (hashId e.secret) db.tokens).isSome = true) :
    (recordAll hashId db events).usage_logs
      = takeLast 10000 (db.usage_logs ++ events.map (entryOf hashId)) ∧
    (recordAll hashId db events).usage_logs.length ≤ 10000 ∧
    (recordAll hashId db events).stats.total_requests
      = db.stats.total_requests + events.length ∧
    (recordAll hashId db events).stats.total_tokens
      = db.stats.total_tokens + (events.map (fun e => e.tokens_used)).sum ∧
    (db.usage_logs = [] → events.length = 10001 →
      (recordAll hashId db events).usage_logs
        = (events.map (entryOf hashId)).drop 1 ∧
      (recordAll hashId db events).usage_logs.length = 10000) := by
  obtain ⟨H1, H2, H3⟩ := recordAll_characterization hashId events db hlen hpres
  refine ⟨H1, ?_, H2, H3, ?_⟩
  · rw [H1, length_takeLast]
    omega
  · intro hnil h10001
    have hmaplen : (events.map (entryOf hashId)).length = 10001 := by
      rw [List.length_map, h10001]
    constructor
    · rw [H1, hnil, List.nil_append]
      unfold takeLast
      rw [hmaplen]
    · rw [H1, hnil, List.nil_append, length_takeLast, hmaplen]
      omega

/-- A concrete usage event, for witnesses. -/
def sampleEvent : UsageEvent :=
  { secret := "s", model := "m", tokens_used := 1, ip := "1.2.3.4",
    country := "Local", now := 0 }

/-- Witness for C3: 10,001 copies of one event recorded against a one-token
store with an empty log. -/
theorem claim_C3_witness :
    (recordAll (fun _ => "t") activeDb (List.replicate 10001 sampleEvent)).usage_logs
      = ((List.replicate 10001 sampleEvent).map (entryOf (fun _ => "t"))).drop 1 :=
  ((claim_C3_usage_log_cap (fun _ => "t") activeDb
      (List.replicate 10001 sampleEvent)
      (by simp [activeDb])
      (by
        intro e he
        rw [List.eq_of_mem_replicate he]
        rfl)).2.2.2.2 (by simp [activeDb]) (by rw [List.length_replicate])).1

lemma ipStep_inv (l : List String) (ip : String) (hnd : l.Nodup)
    (hlen : l.length ≤ 100) :
    (ipStep l ip).Nodup ∧ (ipStep l ip).length ≤ 100 := by
  simp only [ipStep]
  by_cases hmem : ip ∈ l
  · rw [if_pos hmem]; exact ⟨hnd, hlen⟩
  · rw [if_neg hmem]
    have hnd2 : (l ++ [ip]).Nodup := by
      rw [List.nodup_append]
      refine ⟨hnd, List.nodup_singleton ip, ?_⟩
      intro x hx hx2
      rw [List.mem_singleton] at hx2
      subst hx2
      exact hmem hx
    by_cases hl : (l ++ [ip]).length > 100
    · rw [if_pos hl]
      constructor
      · exact List.Nodup.sublist (List.drop_sublist 1 (l ++ [ip])) hnd2
      · rw [List.length_drop, List.length_append]
        simp only [List.length_singleton]
        omega
    · rw [if_neg hl]
      push_neg at hl
      exact ⟨hnd2, hl⟩

lemma applyUsage_ip (model : String) (tokens_used : Int) (ip country : String)
    (now : Nat) (t : TokenRecord) :
    (applyUsage model tokens_used ip country now t).usage_stats.ip_addresses
      = ipStep t.usage_stats.ip_addresses ip := by
  by_cases hc : country ≠ "" <;> simp [applyUsage, hc]

lemma mem_updateFirst {κ α : Type} [DecidableEq κ] (k : κ) (f : α → α) :
    ∀ (l : List (κ × α)) (p : κ × α), p ∈ updateFirst k f l →
      p ∈ l ∨ ∃ v, (p.1, v) ∈ l ∧ p.2 = f v := by
  intro l
  induction l with
  | nil => intro p hp; simp [updateFirst] at hp
  | cons q rest ih =>
    obtain ⟨a, b⟩ := q
    intro p hp
    by_cases h : a = k
    · subst h
      simp only [updateFirst, if_pos rfl] at hp
      rcases List.mem_cons.mp hp with h1 | h1
      · right
        subst h1
        exact ⟨b, List.mem_cons_self _ _, rfl⟩
      · left; exact List.mem_cons_of_mem _ h1
    · simp only [updateFirst, if_neg h] at hp
      rcases List.mem_cons.mp hp with h1 | h1
      · left; subst h1; exact List.mem_cons_self _ _
      · rcases ih p h1 with h2 | ⟨v, hv, he⟩
        · left; exact List.mem_cons_of_mem _ h2
        · right; exact ⟨v, List.mem_cons_of_mem _ hv, he⟩

lemma lookup_log_usage_self (hashId : String → String) (db : DbData)
    (token model : String) (tokens_used : Int) (ip country : String)
    (now : Nat) (r : TokenRecord)
    (h : lookupKey (hashId token) db.tokens = some r) :
    lookupKey (hashId token)
        (log_usage hashId db token model tokens_used ip country now).tokens
      = some (applyUsage model tokens_used ip country now r) := by
  simp only [log_usage, h]
  rw [lookupKey_updateFirst_self, h]
  rfl

lemma lookup_recordAll_same (hashId : String → String) (s0 : String) :
    ∀ (events : List UsageEvent) (db : DbData) (r : TokenRecord),
      (∀ e ∈ events, e.secret = s0) →
      lookupKey (hashId s0) db.tokens = some r →
      lookupKey (hashId s0) (recordAll hashId db events).tokens
        = some (events.foldl
            (fun t e => applyUsage e.model e.tokens_used e.ip e.country e.now t) r) := by
  intro events
  induction events with
  | nil => intro db r _ h; simpa [recordAll] using h
  | cons e rest ih =>
    intro db r hsec h
    have he : e.secret = s0 := hsec e (List.mem_cons_self e rest)
    have h1 : lookupKey (hashId s0) (log_usage hashId db e.secret e.model
        e.tokens_used e.ip e.country e.now).tokens
        = some (applyUsage e.model e.tokens_used e.ip e.country e.now r) := by
      rw [he]
      exact lookup_log_usage_self hashId db s0 e.model e.tokens_used e.ip
        e.country e.now r h
    have hrec : recordAll hashId db (e :: rest)
        = recordAll hashId (log_usage hashId db e.secret e.model e.tokens_used
            e.ip e.country e.now) rest := by
      simp [recordAll]
    rw [hrec, List.foldl_cons]
    exact ih _ _ (fun e' he' => hsec e' (List.mem_cons_of_mem _ he')) h1

lemma foldl_applyUsage_ip (events : List UsageEvent) :
    ∀ (r : TokenRecord),
      (events.foldl
        (fun t e => applyUsage e.model e.tokens_used e.ip e.country e.now t)
        r).usage_stats.ip_addresses
      = events.foldl (fun l e => ipStep l e.ip) r.usage_stats.ip_addresses := by
  induction events with
  | nil => intro r; rfl
  | cons e rest ih =>
    intro r
    rw [List.foldl_cons, List.foldl_cons, ih, applyUsage_ip]

lemma ipFold_small :
    ∀ (ips : List String) (acc : List String),
      (∀ i ∈ ips, i ∉ acc) → ips.Nodup → acc.length + ips.length ≤ 100 →
      List.foldl ipStep acc ips = acc ++ ips := by
  intro ips
  induction ips with
  | nil => intro acc _ _ _; simp
  | cons i rest ih =>
    intro acc hfresh hnd hlen
    have hmem : i ∉ acc := hfresh i (List.mem_cons_self i rest)
    simp only [List.length_cons] at hlen
    have hstep : ipStep acc i = acc ++ [i] := by
      simp only [ipStep]
      rw [if_neg hmem]
      have hsmall : ¬ (acc ++ [i]).length > 100 := by
        rw [List.length_append, List.length_singleton]
        omega
      rw [if_neg hsmall]
    rw [List.foldl_cons, hstep]
    have hfresh2 : ∀ x ∈ rest, x ∉ acc ++ [i] := by
      intro x hx
      simp only [List.mem_append, List.mem_singleton]
      push_neg
      refine ⟨hfresh x (List.mem_cons_of_mem _ hx), ?_⟩
      intro hxi
      subst hxi
      exact absurd hx (List.nodup_cons.mp hnd).1
    have hrec := ih (acc ++ [i]) hfresh2 (List.nodup_cons.mp hnd).2
      (by rw [List.length_append, List.length_singleton]; omega)
    rw [hrec, List.append_assoc]
    rfl

lemma ip101 (first : String) (rest : List String)
    (hnd : (first :: rest).Nodup) (hlen : rest.length = 100) :
    List.foldl ipStep [] (first :: rest) = rest := by
  have hnr : rest.Nodup := (List.nodup_cons.mp hnd).2
  have hfr : first ∉ rest := (List.nodup_cons.mp hnd).1
  have hsplit : rest.take 99 ++ rest.drop 99 = rest := List.take_append_drop 99 rest
  have htl : (rest.take 99).length = 99 := by rw [List.length_take]; omega
  obtain ⟨lastIp, hlast⟩ : ∃ a, rest.drop 99 = [a] := by
    have hl1 : (rest.drop 99).length = 1 := by rw [List.length_drop]; omega
    exact List.length_eq_one.mp hl1
  have hnd2 : (rest.take 99).Nodup ∧ (rest.drop 99).Nodup ∧
      (rest.take 99).Disjoint (rest.drop 99) := by
    rw [← hsplit] at hnr
    exact List.nodup_append.mp hnr
  have h1 : ipStep [] first = [first] := by
    simp only [ipStep]
    norm_num
  rw [List.foldl_cons, h1]
  conv_lhs => rw [← hsplit]
  rw [List.foldl_append]
  have h2 : List.foldl ipStep [first] (rest.take 99) = [first] ++ rest.take 99 := by
    apply ipFold_small
    · intro x hx
      simp only [List.mem_singleton]
      intro heq
      exact hfr (heq ▸ List.take_subset 99 rest hx)
    · exact hnd2.1
    · rw [htl]; norm_num
  rw [h2, hlast]
  rw [List.foldl_cons, List.foldl_nil]
  have hlmem : lastIp ∉ [first] ++ rest.take 99 := by
    simp only [List.mem_append, List.mem_singleton]
    push_neg
    constructor
    · intro heq
      have hmem : lastIp ∈ rest :=
        List.drop_subset 99 rest (by rw [hlast]; exact List.mem_singleton_self lastIp)
      exact absurd (heq ▸ hmem) hfr
    · intro hmem
      exact absurd (by rw [hlast]; exact List.mem_singleton_self lastIp)
        (fun hd => hnd2.2.2 hmem hd)
  have hlen2 : (([first] ++ rest.take 99) ++ [lastIp]).length = 101 := by
    simp [htl]
  simp only [ipStep]
  rw [if_neg hlmem]
  rw [if_pos (by rw [hlen2]; omega)]
  rw [List.append_assoc]
  show (first :: (rest.take 99 ++ [lastIp])).drop 1 = rest
  rw [List.drop_one, List.tail_cons, ← hlast, hsplit]

/-- Claim C5: after every `log_usage` call every token's
`usage_stats.ip_addresses` is duplicate-free with length at most 100 (an IP
is appended only when absent, evicting index 0 past 100 entries), and after
recording 101 events from 101 distinct IPs on a token that starts with no
recorded IPs, the list holds exactly the last 100 of them: the very first
IP is gone. -/
theorem claim_C5_ip_window (hashId : String → String) :
    (∀ (db : DbData) (token model : String) (tokens_used : Int)
        (ip country : String) (now : Nat),
      (∀ p ∈ db.tokens, p.2.usage_stats.ip_addresses.Nodup ∧
          p.2.usage_stats.ip_addresses.length ≤ 100) →
      ∀ p ∈ (log_usage hashId db token model tokens_used ip country now).tokens,
        p.2.usage_stats.ip_addresses.Nodup ∧
          p.2.usage_stats.ip_addresses.length ≤ 100) ∧
    (∀ (db : DbData) (s0 : String) (r : TokenRecord)
        (events : List UsageEvent) (first : String) (rest : List String),
      lookupKey (hashId s0) db.tokens = some r →
      r.usage_stats.ip_addresses = [] →
      (∀ e ∈ events, e.secret = s0) →
      events.map (fun e => e.ip) = first :: rest →
      (first :: rest).Nodup →
      rest.length = 100 →
      (lookupKey (hashId s0) (recordAll hashId db events).tokens).map
          (fun t => t.usage_stats.ip_addresses) = some rest ∧
      rest.length = 100 ∧ first ∉ rest) := by
  constructor
  · intro db token model tokens_used ip country now hInv p hp
    cases h : lookupKey (hashId token) db.tokens with
    | none =>
      simp only [log_usage, h] at hp
      exact hInv p hp
    | some r =>
      simp only [log_usage, h] at hp
      rcases mem_updateFirst _ _ _ p hp with h1 | ⟨v, hv, he⟩
      · exact hInv p h1
      · have hiv := hInv (p.1, v) hv
        rw [he, applyUsage_ip]
        exact ipStep_inv _ _ hiv.1 hiv.2
  · intro db s0 r events first rest hlk hips hsec hmap hnd hrlen
    have h1 := lookup_recordAll_same hashId s0 events db r hsec hlk
    refine ⟨?_, hrlen, (List.nodup_cons.mp hnd).1⟩
    rw [h1]
    simp only [Option.map_some']
    rw [foldl_applyUsage_ip, hips]
    rw [← List.foldl_map (fun e => e.ip) ipStep events []]
    rw [hmap]
    exact congrArg some (ip101 first rest hnd hrlen)

/-- 100 distinct non-empty IP strings, for the C5 witness. -/
def restW : List String :=
  (List.range 100).map (fun n => String.mk (List.replicate (n + 1) 'a'))

/-- The 101 distinct IPs of the C5 witness: the empty string then `restW`. -/
def ipsW : List String := ("") :: restW

/-- 101 usage events from the 101 distinct IPs, for the C5 witness. -/
def eventsW : List UsageEvent :=
  ipsW.map (fun i =>
    { secret := "s", model := "m", tokens_used := 1, ip := i, country := "",
      now := 0 })

lemma restW_nodup : restW.Nodup := by
  apply List.Nodup.map_on
  · intro x _ y _ hxy
    have hd := congrArg String.data hxy
    simp only [] at hd
    have hl := congrArg List.length hd
    simp [List.length_replicate] at hl
    exact hl
  · exact List.nodup_range 100

lemma empty_notin_restW : ("") ∉ restW := by
  intro hmem
  simp only [restW, List.mem_map] at hmem
  obtain ⟨n, _, heq⟩ := hmem
  have hd := congrArg String.data heq
  simp at hd

lemma restW_length : restW.length = 100 := by
  simp [restW]

lemma eventsW_map_ip : eventsW.map (fun e => e.ip) = ("") :: restW := by
  simp only [eventsW, List.map_map, Function.comp]
  show ipsW.map (fun i => i) = ("") :: restW
  rw [List.map_id']
  rfl

/-- Witness for C5: recording the 101 distinct-IP events against a one-token
store leaves exactly the last 100 IPs; the first one is evicted. -/
theorem claim_C5_witness :
    (lookupKey ("t") (recordAll (fun _ => "t") activeDb eventsW).tokens).map
        (fun t => t.usage_stats.ip_addresses) = some restW ∧
    restW.length = 100 ∧ ("") ∉ restW :=
  (claim_C5_ip_window (fun _ => "t")).2 activeDb ("s") activeRecord eventsW
    ("") restW rfl rfl
    (by
      intro e he
      simp only [eventsW, List.mem_map] at he
      obtain ⟨i, _, heq⟩ := he
      rw [← heq])
    eventsW_map_ip
    (List.nodup_cons.mpr ⟨empty_notin_restW, restW_nodup⟩)
    restW_length

/-- Dates in order of first appearance, continuing from already-seen keys:
the key set built by the timeline fold. -/
def foldDates (seen : List Nat) : List LogEntry → List Nat
  | [] => seen
  | e :: es =>
    if dateOf e ∈ seen then foldDates seen es
    else foldDates (seen ++ [dateOf e]) es

/-- Requests in one date bucket. -/
def cntOn (es : List LogEntry) (d : Nat) : Nat := (bucketOf es d).length

/-- Token total in one date bucket. -/
def sumOn (es : List LogEntry) (d : Nat) : Int :=
  ((bucketOf es d).map (fun e => e.tokens)).sum

lemma cntOn_nil (d : Nat) : cntOn [] d = 0 := rfl

lemma sumOn_nil (d : Nat) : sumOn [] d = 0 := rfl

lemma cntOn_cons (e : LogEntry) (es : List LogEntry) (d : Nat) :
    cntOn (e :: es) d = (if dateOf e = d then 1 else 0) + cntOn es d := by
  by_cases h : dateOf e = d
  · simp [cntOn, bucketOf, List.filter_cons, h]
    omega
  · simp [cntOn, bucketOf, List.filter_cons, h]

lemma sumOn_cons (e : LogEntry) (es : List LogEntry) (d : Nat) :
    sumOn (e :: es) d = (if dateOf e = d then e.tokens else 0) + sumOn es d := by
  by_cases h : dateOf e = d
  · simp [sumOn, bucketOf, List.filter_cons, h]
  · simp [sumOn, bucketOf, List.filter_cons, h]

lemma lookup_pairing (g : Nat → Nat × Int) (L : List Nat) (k : Nat) :
    lookupKey k (L.map (fun d => (d, g d)))
      = if k ∈ L then some (g k) else none := by
  induction L with
  | nil => simp [lookupKey]
  | cons d rest ih =>
    by_cases h : d = k
    · subst h; simp [lookupKey]
    · simp [lookupKey, h, ih, Ne.symm h]

lemma updateFirst_pairing (f : Nat × Int → Nat × Int) (g g' : Nat → Nat × Int)
    (L : List Nat) (hnd : L.Nodup) (k : Nat) (hk : k ∈ L)
    (hg' : ∀ d, g' d = if d = k then f (g k) else g d) :
    updateFirst k f (L.map (fun d => (d, g d))) = L.map (fun d => (d, g' d)) := by
  induction L with
  | nil => simp at hk
  | cons d rest ih =>
    rw [List.nodup_cons] at hnd
    by_cases h : d = k
    · subst h
      simp only [List.map_cons, updateFirst]
      rw [if_pos trivial]
      congr 1
      · rw [hg' d, if_pos rfl]
      · apply List.map_congr_left
        intro x hx
        have hxk : x ≠ d := fun hc => hnd.1 (hc ▸ hx)
        rw [hg' x, if_neg hxk]
    · have hk2 : k ∈ rest := by
        rcases List.mem_cons.mp hk with h1 | h1
        · exact absurd h1.symm h
        · exact h1
      simp only [List.map_cons, updateFirst]
      rw [if_neg h]
      congr 1
      · rw [hg' d, if_neg h]
      · exact ih hnd.2 hk2

lemma foldDates_nodup :
    ∀ (es : List LogEntry) (L : List Nat), L.Nodup → (foldDates L es).Nodup := by
  intro es
  induction es with
  | nil => intro L h; exact h
  | cons e rest ih =>
    intro L h
    by_cases hd : dateOf e ∈ L
    · simp only [foldDates, if_pos hd]
      exact ih L h
    · simp only [foldDates, if_neg hd]
      apply ih
      rw [List.nodup_append]
      refine ⟨h, List.nodup_singleton _, ?_⟩
      intro x hx hx2
      rw [List.mem_singleton] at hx2
      subst hx2
      exact hd hx

lemma mem_foldDates :
    ∀ (es : List LogEntry) (L : List Nat) (d : Nat),
      d ∈ foldDates L es ↔ d ∈ L ∨ d ∈ es.map dateOf := by
  intro es
  induction es with
  | nil => intro L d; simp [foldDates]
  | cons e rest ih =>
    intro L d
    by_cases hd : dateOf e ∈ L
    · rw [show foldDates L (e :: rest) = foldDates L rest from by
        simp [foldDates, hd]]
      rw [ih]
      simp only [List.map_cons, List.mem_cons]
      constructor
      · rintro (h | h)
        · exact Or.inl h
        · exact Or.inr (Or.inr h)
      · rintro (h | h | h)
        · exact Or.inl h
        · subst h; exact Or.inl hd
        · exact Or.inr h
    · rw [show foldDates L (e :: rest) = foldDates (L ++ [dateOf e]) rest from by
        simp [foldDates, hd]]
      rw [ih]
      simp only [List.mem_append, List.mem_singleton, List.map_cons, List.mem_cons]
      tauto

lemma addEntry_fold :
    ∀ (es : List LogEntry) (L : List Nat) (g : Nat → Nat × Int), L.Nodup →
      es.foldl addEntry (L.map (fun d => (d, g d)))
        = (foldDates L es).map (fun d =>
            (d, (if d ∈ L then (g d).1 else 0) + cntOn es d,
                (if d ∈ L then (g d).2 else 0) + sumOn es d)) := by
  intro es
  induction es with
  | nil =>
    intro L g _
    simp only [List.foldl_nil, foldDates]
    apply List.map_congr_left
    intro d hd
    simp [hd, cntOn_nil, sumOn_nil]
  | cons e rest ih =>
    intro L g hnd
    rw [List.foldl_cons]
    by_cases hd0 : dateOf e ∈ L
    · have hlk : lookupKey (dateOf e) (L.map (fun d => (d, g d)))
          = some (g (dateOf e)) := by
        rw [lookup_pairing, if_pos hd0]
      have hstep : addEntry (L.map (fun d => (d, g d))) e
          = L.map (fun d => (d, if d = dateOf e
              then ((g (dateOf e)).1 + 1, (g (dateOf e)).2 + e.tokens)
              else g d)) := by
        simp only [addEntry]
        rw [show (lookupKey (dateOf e) (L.map (fun d => (d, g d)))).isSome = true
          from by rw [hlk]; rfl]
        rw [if_pos rfl]
        exact updateFirst_pairing _ g _ L hnd (dateOf e) hd0 (fun d => rfl)
      rw [hstep, ih L _ hnd]
      rw [show foldDates L (e :: rest) = foldDates L rest from by
        simp [foldDates, hd0]]
      apply List.map_congr_left
      intro d hd
      rw [cntOn_cons, sumOn_cons]
      by_cases hdd : d = dateOf e
      · subst hdd
        simp [hd0]
        try omega
      · simp [hdd, Ne.symm hdd]
        try omega
    · have hlk : lookupKey (dateOf e) (L.map (fun d => (d, g d))) = none := by
        rw [lookup_pairing, if_neg hd0]
      have hnd2 : (L ++ [dateOf e]).Nodup := by
        rw [List.nodup_append]
        exact ⟨hnd, List.nodup_singleton _,
          fun x hx hx2 => hd0 ((List.mem_singleton.mp hx2) ▸ hx)⟩
      have happ : L.map (fun d => (d, g d)) ++ [(dateOf e, ((0 : Nat), (0 : Int)))]
          = (L ++ [dateOf e]).map (fun d =>
              (d, if d = dateOf e then ((0 : Nat), (0 : Int)) else g d)) := by
        rw [List.map_append]
        congr 1
        · apply List.map_congr_left
          intro x hx
          have hxd : x ≠ dateOf e := fun hc => hd0 (hc ▸ hx)
          rw [if_neg hxd]
        · simp
      have hstep : addEntry (L.map (fun d => (d, g d))) e
          = (L ++ [dateOf e]).map (fun d =>
              (d, if d = dateOf e then ((1 : Nat), e.tokens) else g d)) := by
        simp only [addEntry]
        rw [show (lookupKey (dateOf e) (L.map (fun d => (d, g d)))).isSome = false
          from by rw [hlk]; rfl]
        rw [if_neg (by simp)]
        rw [happ]
        apply updateFirst_pairing _ _ _ _ hnd2 (dateOf e)
          (List.mem_append_right _ (List.mem_singleton_self _))
        intro d
        by_cases hdd : d = dateOf e
        · rw [if_pos hdd, if_pos hdd, if_pos rfl]
          norm_num
        · rw [if_neg hdd, if_neg hdd, if_neg hdd]
      rw [hstep, ih (L ++ [dateOf e]) _ hnd2]
      rw [show foldDates L (e :: rest) = foldDates (L ++ [dateOf e]) rest from by
        simp [foldDates, hd0]]
      apply List.map_congr_left
      intro d hd
      rw [cntOn_cons, sumOn_cons]
      by_cases hdd : d = dateOf e
      · subst hdd
        simp [hd0]
        try omega
      · by_cases hdL : d ∈ L
        · simp [hdd, Ne.symm hdd, hdL]
          try omega
        · simp [hdd, Ne.symm hdd, hdL]
          try omega

lemma foldl_if_filter {α β : Type} (f : β → α → β) (p : α → Bool)
    (step : β → α → β)
    (hstep : ∀ acc x, step acc x = if p x then f acc x else acc) :
    ∀ (l : List α) (b : β), l.foldl step b = (l.filter p).foldl f b := by
  intro l
  induction l with
  | nil => intro b; rfl
  | cons x rest ih =>
    intro b
    rw [List.foldl_cons, hstep, List.filter_cons]
    by_cases hx : p x = true
    · rw [if_pos hx, if_pos hx, List.foldl_cons]
      exact ih _
    · rw [if_neg hx, if_neg hx]
      exact ih _

lemma timeline_step_eq (tid : Option String) (htid : tid ≠ some "")
    (cutoff : Int) (acc : List (Nat × Nat × Int)) (e : LogEntry) :
    (if (e.timestamp : Int) < cutoff then acc
     else if timelineFilterSkip tid e then acc
     else addEntry acc e)
    = if (decide (cutoff ≤ (e.timestamp : Int)) && tokenMatches tid e)
      then addEntry acc e else acc := by
  by_cases h1 : (e.timestamp : Int) < cutoff
  · rw [if_pos h1]
    have hdec : decide (cutoff ≤ (e.timestamp : Int)) = false := by
      simp only [decide_eq_false_iff_not]
      omega
    rw [hdec, Bool.false_and]
    rfl
  · rw [if_neg h1]
    have hdec : decide (cutoff ≤ (e.timestamp : Int)) = true := by
      simp only [decide_eq_true_eq]
      omega
    rw [hdec, Bool.true_and]
    cases tid with
    | none =>
      rw [show timelineFilterSkip none e = false from rfl]
      rfl
    | some t =>
      have ht : t ≠ "" := fun hc => htid (by rw [hc])
      by_cases h2 : e.token_id = t
      · have hskip : timelineFilterSkip (some t) e = false := by
          simp [timelineFilterSkip, h2]
        rw [hskip]
        have hbeq : tokenMatches (some t) e = true := by
          simp [tokenMatches, h2]
        rw [hbeq]
        rfl
      · have hskip : timelineFilterSkip (some t) e = true := by
          simp [timelineFilterSkip, h2, ht]
        rw [hskip]
        have hbeq : tokenMatches (some t) e = false := by
          simp [tokenMatches, h2]
        rw [hbeq]
        rfl

lemma timeline_fold_eq (db : DbData) (tid : Option String) (days : Int)
    (now : Nat) (htid : tid ≠ some "") :
    db.usage_logs.foldl
      (fun acc e =>
        if (e.timestamp : Int) < (now : Int) - days * 86400 then acc
        else if timelineFilterSkip tid e then acc
        else addEntry acc e) []
    = (survivingEntries db tid days now).foldl addEntry [] := by
  rw [survivingEntries]
  exact foldl_if_filter addEntry _ _
    (fun acc e => timeline_step_eq tid htid ((now : Int) - days * 86400) acc e)
    db.usage_logs []

lemma fold_result_pairs (es : List LogEntry) :
    es.foldl addEntry []
      = (foldDates [] es).map (fun d => (d, cntOn es d, sumOn es d)) := by
  have h := addEntry_fold es [] (fun _ => ((0 : Nat), (0 : Int))) List.nodup_nil
  simp only [List.map_nil] at h
  rw [h]
  apply List.map_congr_left
  intro d hd
  simp

lemma sort_pairs_map (F : List Nat) (h : Nat → Nat × Int) :
    (F.map (fun d => (d, h d))).insertionSort (fun p q => p.1 ≤ q.1)
      = (F.insertionSort (fun a b => a ≤ b)).map (fun d => (d, h d)) :=
  (List.map_insertionSort (fun a b : Nat => a ≤ b)
    (fun p q : Nat × Nat × Int => p.1 ≤ q.1)
    (fun d => (d, h d)) F (fun _ _ _ _ => Iff.rfl)).symm

lemma sorted_dates_eq (es : List LogEntry) :
    (foldDates [] es).insertionSort (fun a b => a ≤ b)
      = ((es.map dateOf).dedup).insertionSort (fun a b => a ≤ b) := by
  haveI h1 : IsTotal Nat (fun a b : Nat => a ≤ b) := ⟨fun a b => Nat.le_total a b⟩
  haveI h2 : IsTrans Nat (fun a b : Nat => a ≤ b) :=
    ⟨fun a b c hab hbc => Nat.le_trans hab hbc⟩
  haveI h3 : IsAntisymm Nat (fun a b : Nat => a ≤ b) :=
    ⟨fun a b hab hba => Nat.le_antisymm hab hba⟩
  have hperm : (foldDates [] es).Perm ((es.map dateOf).dedup) := by
    rw [List.perm_ext_iff_of_nodup (foldDates_nodup es [] List.nodup_nil)
      (List.nodup_dedup _)]
    intro a
    rw [mem_foldDates, List.mem_dedup]
    simp
  exact List.eq_of_perm_of_sorted
    (((List.perm_insertionSort _ _).trans hperm).trans
      (List.perm_insertionSort _ _).symm)
    (List.sorted_insertionSort (fun a b : Nat => a ≤ b) (foldDates [] es))
    (List.sorted_insertionSort (fun a b : Nat => a ≤ b) ((es.map dateOf).dedup))

/-- Claim C4: `get_usage_timeline` equals the reference re-bucketing of the
global log: keep exactly the entries not older than `now - days` (and, when
a token id is supplied, matching entries), bucket them by calendar date
summing request counts and consumed tokens, and emit buckets sorted
ascending by date with no zero-filled buckets. -/
theorem claim_C4_timeline_refinement (db : DbData) (token_id : Option String)
    (days : Int) (now : Nat) (htid : token_id ≠ some "") :
    get_usage_timeline db token_id days now = timeline_spec db token_id days now := by
  simp only [get_usage_timeline, timeline_spec]
  rw [timeline_fold_eq db token_id days now htid]
  rw [fold_result_pairs]
  rw [sort_pairs_map]
  rw [sorted_dates_eq]
  rfl

/-- Two log entries on consecutive timestamps, for the C4 witness. -/
def timelineDb : DbData :=
  { tokens := [],
    usage_logs :=
      [{ timestamp := 86400, token_id := "t", model := "m", tokens := 2,
         ip := "1", country := "Local" },
       { timestamp := 90000, token_id := "t", model := "m", tokens := 3,
         ip := "1", country := "Local" }],
    stats := { total_requests := 2, total_tokens := 5, active_tokens := 0 } }

/-- Witness for C4 at a concrete store and query. -/
theorem claim_C4_witness :
    get_usage_timeline timelineDb none 7 172800
      = timeline_spec timelineDb none 7 172800 :=
  claim_C4_timeline_refinement timelineDb none 7 172800
    (fun h => Option.noConfusion h)
